import Mathlib

/-!
Shallow embedding of the tvnotifier pipeline (src/main.rs).

Modelling conventions:
* `chrono::DateTime<Local>` is modelled as an `Int`: the number of seconds shown on
  the local clock since the local epoch.  `with_timezone(&Local)` is therefore the
  identity, and `date_naive()` is floor division by 86400 (`dateNaive`).
* `chrono::DateTime::parse_from_rfc3339` is external library code; it is abstracted
  as a parameter `p : String → Option Int` (`none` = parse error).  Its
  `Default::default()` value ("zero time", the Unix epoch) is modelled as `0`.
* `serde_json::Value` is modelled by the inductive `Json`.  Indexing a `Value`
  (`value["k"]`) returns `null` when the value is not an object or the key is
  absent; indexing a `serde_json::Map` (`map["k"]`) PANICS when the key is absent.
  Rust panics (process aborts) are modelled as `none` / a dedicated `crash`
  constructor, kept distinct from returned `Err` values.
* `std::collections::HashSet<String>` is modelled as `Finset String`; `HashMap`
  built by successive `insert` calls is modelled as an association list with
  replace-on-insert semantics (`insertMovie`).
* Rust's `sort_by` is a stable sort; it is modelled by a structurally recursive
  stable insertion sort (`sortShows`), extensionally equal to any stable sort by
  the same key.
* Wall-clock reads (`Local::now()`) are injected as explicit `now`/`today`
  arguments, and the `chrono` display formatter for `DATE_TIME_FORMAT` is injected
  as a parameter `fmtDT : Int → String`.
-/

/-- Model of `serde_json::Value`. -/
inductive Json where
  | null
  | boolVal (b : Bool)
  | num (n : Int)
  | str (s : String)
  | arr (elems : List Json)
  | obj (fields : List (String × Json))

/-- Key lookup in the field list of a JSON object (keys of a parsed object are
unique, so first-match lookup is exact). -/
def Json.lookupField : List (String × Json) → String → Option Json
  | [], _ => none
  | (k, v) :: rest, key => if k = key then some v else Json.lookupField rest key

/-- Model of `serde_json::Value`'s `Index` impl: `value[key]` yields `Null` when
`value` is not an object or the key is absent. -/
def Json.index (j : Json) (key : String) : Json :=
  match j with
  | .obj fields => (Json.lookupField fields key).getD .null
  | _ => .null

/-- Model of `Value::as_str`. -/
def Json.as_str : Json → Option String
  | .str s => some s
  | _ => none

/-- Model of `Value::is_object`. -/
def Json.is_object : Json → Bool
  | .obj _ => true
  | _ => false

/-- Model of `Value::as_object`. -/
def Json.as_object : Json → Option (List (String × Json))
  | .obj fields => some fields
  | _ => none

/-- Model of the `Show` struct: `show_time` is a `DateTime<Local>` modelled as
local-clock seconds. -/
structure Show where
  id : Int
  name : String
  episode_name : String
  show_time : Int
deriving DecidableEq, Repr

/-- Model of `DateTime::date_naive` in the fixed local timezone: the local
calendar day number.  Lean's `Int` division is Euclidean division, which is
floor division for the positive divisor 86400. -/
def dateNaive (t : Int) : Int := t / 86400

/-- The `FUTURE_DAY_LIMIT` constant from main.rs. -/
def FUTURE_DAY_LIMIT : Int := 7

/-- Model of `parse_show` (main.rs lines 248-258).  `episode_details` is a
`serde_json::Map`, whose `Index` impl panics when the key is absent — the panic
is modelled as `none`.  A present but non-string `name`/`airstamp` degrades via
`unwrap_or_default` to `""`, and an unparseable airstamp degrades via
`unwrap_or_default` to the zero time `0`. -/
def parse_show (p : String → Option Int) (show_id : Int) (show_name : String)
    (episode_details : List (String × Json)) : Option Show :=
  match Json.lookupField episode_details "name" with
  | none => none
  | some nameVal =>
    match Json.lookupField episode_details "airstamp" with
    | none => none
    | some airVal =>
      let episode_name := nameVal.as_str.getD ""
      let airstamp := airVal.as_str.getD ""
      let show_time := (p airstamp).getD 0
      some { id := show_id, name := show_name, episode_name := episode_name,
             show_time := show_time }

/-- Outcome of one `get_next_episode` call on a successfully fetched, parsed
body: `event`/`noEvent` model `Ok(Some _)`/`Ok(None)`, `failure` models a
returned `Err`, and `crash` models a Rust panic. -/
inductive FetchResult where
  | event (s : Show)
  | noEvent
  | failure (msg : String)
  | crash (msg : String)
deriving DecidableEq, Repr

/-- The `nextepisode` half of `get_next_episode` (main.rs lines 364-375):
reached when no same-day previous episode was returned. -/
def next_episode_part (p : String → Option Int) (show_id : Int) (show_name : String)
    (embedded : Json) : FetchResult :=
  match (embedded.index "nextepisode").as_object with
  | none => .noEvent
  | some nextFields =>
    match parse_show p show_id show_name nextFields with
    | none => .crash "key not found in nextepisode map"
    | some next_show => .event next_show

/-- Model of `get_next_episode` (main.rs lines 336-376) from the parsed response
body onward (transport errors happen before this logic and are out of scope).
`now` is the injected `Local::now()` instant. -/
def get_next_episode (p : String → Option Int) (now : Int) (show_id : Int)
    (body : Json) : FetchResult :=
  match (body.index "name").as_str with
  | none => .failure "show name not found"
  | some show_name =>
    let embedded := body.index "_embedded"
    if embedded.is_object then
      match (embedded.index "previousepisode").as_object with
      | some prevFields =>
        match parse_show p show_id show_name prevFields with
        | none => .crash "key not found in previousepisode map"
        | some prev_show =>
          if dateNaive prev_show.show_time = dateNaive now then .event prev_show
          else next_episode_part p show_id show_name embedded
      | none => next_episode_part p show_id show_name embedded
    else .noEvent

/-- Model of the filter/partition loop at the top of `send_email` (main.rs lines
129-143): walk the show list, `break` at the first show dated strictly after
`today + FUTURE_DAY_LIMIT` (discarding the rest of the list), and route each
kept show into `today_shows` (date = today) or `future_shows` (otherwise). -/
def filterPartition (today : Int) : List Show → List Show × List Show
  | [] => ([], [])
  | s :: rest =>
    if dateNaive s.show_time > today + FUTURE_DAY_LIMIT then ([], [])
    else
      let tf := filterPartition today rest
      if dateNaive s.show_time = today then (s :: tf.1, tf.2) else (tf.1, s :: tf.2)

/-- Model of `impl Display for Show` (main.rs lines 43-53); `fmtDT` is the
injected `chrono` formatter for `DATE_TIME_FORMAT`. -/
def showDisplay (fmtDT : Int → String) (s : Show) : String :=
  fmtDT s.show_time ++ ": " ++ s.name ++ " (" ++ s.episode_name ++ ")"

/-- Model of `Show::html` (main.rs lines 56-64). -/
def showHtml (fmtDT : Int → String) (s : Show) : String :=
  fmtDT s.show_time ++ ": <a href=\"https://www.tvmaze.com/shows/" ++ toString s.id
    ++ "\">" ++ s.name ++ "</a> (" ++ s.episode_name ++ ")"

/-- One `push_str(show.html()); push_str("<br />")` loop from `send_email`. -/
def htmlLines (fmtDT : Int → String) (shows : List Show) : String :=
  shows.foldl (fun acc s => acc ++ showHtml fmtDT s ++ "<br />") ""

/-- The today-section body of the email (main.rs lines 145-152): the rendered
lines when non-empty, a placeholder otherwise. -/
def todaySection (fmtDT : Int → String) (t : List Show) : String :=
  if t.length > 0 then htmlLines fmtDT t else "</i>Nothing airing today.</i>"

/-- The future-section of the email (main.rs lines 155-161): emitted only when
the future list is non-empty. -/
def futureSection (fmtDT : Int → String) (f : List Show) : String :=
  if f.length > 0 then "Future shows:<br />" ++ htmlLines fmtDT f else ""

/-- Model of the HTML body assembled by `send_email` (main.rs lines 144-169). -/
def emailMessage (fmtDT : Int → String) (siteUrl : String) (today : Int)
    (shows : List Show) : String :=
  let tf := filterPartition today shows
  "<pre><b>Today\x27s shows:<br />" ++ todaySection fmtDT tf.1 ++ "</b><br /><br />"
    ++ futureSection fmtDT tf.2
    ++ "<br /><br />Manage subscriptions on <a href=\"" ++ siteUrl
    ++ "\">TV Notifier UI</a>" ++ "</pre>"

/-- Model of the `Movie` struct (main.rs lines 285-288). -/
structure Movie where
  title : String
  platforms : List String
deriving DecidableEq, Repr

/-- Model of the `Service` struct deserialized from the availability API
(main.rs lines 277-283). -/
structure Service where
  service : String
  streaming_type : String
  addon : Option String
deriving DecidableEq, Repr

/-- The filter predicate of `get_streaming_platforms` (main.rs lines 319-321). -/
def isSubscriptionOrAddon (s : Service) : Bool :=
  s.streaming_type == "subscription" || s.streaming_type == "addon"

/-- The map step of `get_streaming_platforms` (main.rs lines 322-327): the
effective platform name is the add-on name when present, the umbrella service
name otherwise. -/
def effectivePlatform (s : Service) : String := s.addon.getD s.service

/-- Model of `get_streaming_platforms` (main.rs lines 290-334) from the parsed
response body onward: `title` is `result.title` and `us` is
`result.streamingInfo.us`. -/
def get_streaming_platforms (title : String) (us : List Service) : Movie :=
  { title := title, platforms := (us.filter isSubscriptionOrAddon).map effectivePlatform }

/-- Model of the per-movie intersection in `main` (main.rs lines 96-100). -/
def movieIntersection (subscribed : Finset String) (m : Movie) : Finset String :=
  subscribed ∩ m.platforms.toFinset

/-- Model of `HashMap::insert` on an association list: replaces the binding of
an existing key, appends a new binding otherwise. -/
def insertMovie (title : String) (ps : Finset String) :
    List (String × Finset String) → List (String × Finset String)
  | [] => [(title, ps)]
  | (k, v) :: rest =>
    if k = title then (title, ps) :: rest else (k, v) :: insertMovie title ps rest

/-- The movie loop of `main` (main.rs lines 90-104), processing each movie in
order and inserting `title ↦ intersection` when the intersection is non-empty. -/
def movieLoop (subscribed : Finset String) (acc : List (String × Finset String)) :
    List Movie → List (String × Finset String)
  | [] => acc
  | m :: rest =>
    let inter := movieIntersection subscribed m
    movieLoop subscribed (if inter.card > 0 then insertMovie m.title inter acc else acc) rest

/-- The `movie_to_platforms` map built by `main` (main.rs lines 88-104). -/
def movie_to_platforms (subscribed : Finset String) (movies : List Movie) :
    List (String × Finset String) :=
  movieLoop subscribed [] movies

/-- What one spawned show-fetch task sends back through its join handle
(main.rs lines 381-387): `Ok(Option<Show>)` or an `Err` message. -/
inductive FetchOutcome where
  | ok (s : Option Show)
  | err (msg : String)
deriving DecidableEq, Repr

/-- The join loop of `get_shows_parallel` (main.rs lines 389-394): results are
collected in spawn order; `.unwrap()` on an `Err` outcome panics the whole run,
modelled as `none`. -/
def collectShows : List FetchOutcome → Option (List Show)
  | [] => some []
  | .err _ :: _ => none
  | .ok none :: rest => collectShows rest
  | .ok (some s) :: rest => (collectShows rest).map (fun l => s :: l)

/-- Insert a newly arriving show after every already-placed show whose time is
`≤` its own: the insertion step of a stable ascending sort by `show_time`. -/
def insertSorted (s : Show) : List Show → List Show
  | [] => [s]
  | x :: xs => if x.show_time ≤ s.show_time then x :: insertSorted s xs else s :: x :: xs

/-- Model of `shows.sort_by(|a, b| a.show_time.cmp(&b.show_time))` (main.rs line
395).  Rust's `sort_by` is a stable sort; any stable sort by the same key is
extensionally the same function, and this structurally recursive insertion sort
is one. -/
def sortShows (shows : List Show) : List Show :=
  shows.foldl (fun acc s => insertSorted s acc) []

/-- Model of `get_shows_parallel` (main.rs lines 378-397): one outcome per show
id in input order; a single failed fetch panics the run (`none`), otherwise the
present shows are kept in fetch order and stably sorted by `show_time`. -/
def get_shows_parallel (outcomes : List FetchOutcome) : Option (List Show) :=
  (collectShows outcomes).map sortShows

/-- Ascending-by-`show_time` order on show lists (what `sort_by` establishes). -/
abbrev sortedByTime (l : List Show) : Prop :=
  l.Pairwise (fun a b => a.show_time ≤ b.show_time)

/-- Decidable substring test: `strContains hay pat = true` iff `pat` occurs
contiguously inside `hay`. -/
def strContains (hay pat : String) : Bool :=
  (List.range (hay.toList.length + 1)).any
    (fun i => pat.toList.isPrefixOf (hay.toList.drop i))

/-- One movie line of the `no_mail` debug output (main.rs lines 108-114).
Rust's `{:?}` rendering of a `HashSet` has unspecified iteration order, so the
set formatter is injected as a parameter `setRepr`. -/
def movieDebugLine (setRepr : Finset String → String)
    (entry : String × Finset String) : String :=
  entry.1 ++ " available on " ++ setRepr entry.2

/-- Model of the `no_mail` branch of `main` (main.rs lines 106-116): one
`println!` line per show (Display form, unfiltered), then one line per entry of
`movie_to_platforms`. -/
def plainOutputLines (fmtDT : Int → String) (setRepr : Finset String → String)
    (shows : List Show) (movieMap : List (String × Finset String)) : List String :=
  shows.map (showDisplay fmtDT) ++ movieMap.map (movieDebugLine setRepr)

/-- Floor division by a day of seconds is monotone, so dates respect the time
order. -/
theorem dateNaive_mono {t t' : Int} (h : t ≤ t') : dateNaive t ≤ dateNaive t' := by
  unfold dateNaive
  omega

/-- On a list sorted ascending by `show_time`, the break-at-first-late-show loop
of `send_email` computes exactly the horizon filter, split by date = today. -/
theorem filterPartition_eq_of_sorted (today : Int) (shows : List Show)
    (hs : sortedByTime shows) :
    filterPartition today shows =
      (shows.filter (fun s => dateNaive s.show_time ≤ today + FUTURE_DAY_LIMIT ∧
          dateNaive s.show_time = today),
       shows.filter (fun s => dateNaive s.show_time ≤ today + FUTURE_DAY_LIMIT ∧
          ¬ dateNaive s.show_time = today)) := by
  induction shows with
  | nil => rfl
  | cons s rest ih =>
    obtain ⟨hhead, htail⟩ := List.pairwise_cons.mp hs
    have ihr := ih htail
    by_cases h1 : dateNaive s.show_time > today + FUTURE_DAY_LIMIT
    · have hlate : ∀ x ∈ s :: rest, ¬ dateNaive x.show_time ≤ today + FUTURE_DAY_LIMIT := by
        intro x hx
        rcases List.mem_cons.mp hx with hx | hx
        · subst hx; omega
        · have := dateNaive_mono (hhead x hx); omega
      simp only [filterPartition, if_pos h1, Prod.mk.injEq]
      constructor
      · rw [eq_comm, List.filter_eq_nil_iff]
        intro x hx
        simp only [decide_eq_true_eq, not_and]
        exact fun hc => absurd hc (hlate x hx)
      · rw [eq_comm, List.filter_eq_nil_iff]
        intro x hx
        simp only [decide_eq_true_eq, not_and]
        exact fun hc => absurd hc (hlate x hx)
    · have h1' : dateNaive s.show_time ≤ today + FUTURE_DAY_LIMIT := by omega
      simp only [filterPartition, if_neg h1, ihr]
      have h0 : (0 : Int) ≤ FUTURE_DAY_LIMIT := by norm_num [FUTURE_DAY_LIMIT]
      by_cases h2 : dateNaive s.show_time = today
      · simp [List.filter_cons, h1', h2, h0]
      · simp [List.filter_cons, h1', h2, h0]

/-- C2: for every sorted show list handed to `send_email` (the list it receives
is the sorted output of `get_shows_parallel`), a show is kept for rendering
(routed into the today or the future section) exactly when its air date is at
most `today + 7` days; in particular a show dated exactly `today + 7` is kept
and one dated `today + 8` or later is dropped. -/
theorem send_email_horizon_filter (today : Int) (shows : List Show)
    (hs : sortedByTime shows) (s : Show) :
    (s ∈ (filterPartition today shows).1 ∨ s ∈ (filterPartition today shows).2) ↔
      (s ∈ shows ∧ dateNaive s.show_time ≤ today + FUTURE_DAY_LIMIT) := by
  rw [filterPartition_eq_of_sorted today shows hs]
  simp only [List.mem_filter, decide_eq_true_eq]
  constructor
  · rintro (⟨hm, hc⟩ | ⟨hm, hc⟩) <;> exact ⟨hm, hc.1⟩
  · rintro ⟨hm, hc⟩
    by_cases h2 : dateNaive s.show_time = today
    · exact Or.inl ⟨hm, ⟨hc, h2⟩⟩
    · exact Or.inr ⟨hm, ⟨hc, h2⟩⟩

/-- Witness for C2 at the exact boundary: with `today = 0`, the show dated
day 7 (time 604800) is kept and the show dated day 8 (time 691200) is dropped. -/
theorem send_email_horizon_filter_witness :
    ((⟨1, "A", "e", 604800⟩ : Show) ∈
        (filterPartition 0 [⟨1, "A", "e", 604800⟩, ⟨2, "B", "f", 691200⟩]).1 ∨
      (⟨1, "A", "e", 604800⟩ : Show) ∈
        (filterPartition 0 [⟨1, "A", "e", 604800⟩, ⟨2, "B", "f", 691200⟩]).2)
    ∧ ¬ ((⟨2, "B", "f", 691200⟩ : Show) ∈
        (filterPartition 0 [⟨1, "A", "e", 604800⟩, ⟨2, "B", "f", 691200⟩]).1 ∨
      (⟨2, "B", "f", 691200⟩ : Show) ∈
        (filterPartition 0 [⟨1, "A", "e", 604800⟩, ⟨2, "B", "f", 691200⟩]).2) := by
  constructor
  · exact (send_email_horizon_filter 0 _ (by decide) _).mpr (by decide)
  · intro h
    exact absurd ((send_email_horizon_filter 0 _ (by decide) _).mp h) (by decide)

/-- C4: on an already-filtered (all dates within the 7-day horizon), sorted show
list, `send_email` puts exactly the shows dated today into the today section and
exactly the rest into the future section, each section staying sorted; the today
section renders the placeholder exactly when empty, and the future section is
emitted (with its header) exactly when non-empty. -/
theorem render_today_future_partition (fmtDT : Int → String) (today : Int)
    (shows : List Show) (hs : sortedByTime shows)
    (hh : ∀ s ∈ shows, dateNaive s.show_time ≤ today + FUTURE_DAY_LIMIT) :
    (filterPartition today shows).1 = shows.filter (fun s => dateNaive s.show_time = today)
    ∧ (filterPartition today shows).2 = shows.filter (fun s => ¬ dateNaive s.show_time = today)
    ∧ sortedByTime (filterPartition today shows).1
    ∧ sortedByTime (filterPartition today shows).2
    ∧ ((filterPartition today shows).1 = [] →
        todaySection fmtDT (filterPartition today shows).1 = "</i>Nothing airing today.</i>")
    ∧ ((filterPartition today shows).1 ≠ [] →
        todaySection fmtDT (filterPartition today shows).1 =
          htmlLines fmtDT (filterPartition today shows).1)
    ∧ ((filterPartition today shows).2 = [] →
        futureSection fmtDT (filterPartition today shows).2 = "")
    ∧ ((filterPartition today shows).2 ≠ [] →
        futureSection fmtDT (filterPartition today shows).2 =
          "Future shows:<br />" ++ htmlLines fmtDT (filterPartition today shows).2) := by
  have hfp := filterPartition_eq_of_sorted today shows hs
  have h1 : (filterPartition today shows).1 =
      shows.filter (fun s => dateNaive s.show_time = today) := by
    rw [hfp]
    exact List.filter_congr (fun x hx => by simp [hh x hx])
  have h2 : (filterPartition today shows).2 =
      shows.filter (fun s => ¬ dateNaive s.show_time = today) := by
    rw [hfp]
    exact List.filter_congr (fun x hx => by simp [hh x hx])
  refine ⟨h1, h2, ?_, ?_, ?_, ?_, ?_, ?_⟩
  · rw [h1]; exact List.Pairwise.filter _ hs
  · rw [h2]; exact List.Pairwise.filter _ hs
  · intro h; rw [h]; rfl
  · intro h
    simp [todaySection, List.length_pos.mpr h]
  · intro h; rw [h]; rfl
  · intro h
    simp [futureSection, List.length_pos.mpr h]

/-- Witness for C4: with `today = 0` and the sorted in-horizon list
`[A at hour 1 of day 0, B at day 1]`, the today section is exactly `[A]` and the
future section exactly `[B]`, and the future header is emitted. -/
theorem render_today_future_partition_witness :
    (filterPartition 0 [(⟨1, "A", "e", 3600⟩ : Show), ⟨2, "B", "f", 90000⟩]).1 =
        [⟨1, "A", "e", 3600⟩]
    ∧ (filterPartition 0 [(⟨1, "A", "e", 3600⟩ : Show), ⟨2, "B", "f", 90000⟩]).2 =
        [⟨2, "B", "f", 90000⟩]
    ∧ futureSection (fun _ => "t") (filterPartition 0
          [(⟨1, "A", "e", 3600⟩ : Show), ⟨2, "B", "f", 90000⟩]).2 =
        "Future shows:<br />" ++ htmlLines (fun _ => "t") [⟨2, "B", "f", 90000⟩] := by
  have h := render_today_future_partition (fun _ => "t") 0
    [⟨1, "A", "e", 3600⟩, ⟨2, "B", "f", 90000⟩] (by decide) (by decide)
  refine ⟨?_, ?_, ?_⟩
  · rw [h.1]; decide
  · rw [h.2.1]; decide
  · have hf := h.2.2.2.2.2.2.2 (by rw [h.2.1]; decide)
    rw [hf, h.2.1]
    decide

/-- C10: the horizon filter in `send_email` stops at the first show past the
horizon, so an unsorted input can lose an in-horizon show: with `today = 0` and
input `[show dated day 8, show dated day 0]`, the second show airs today yet
appears in neither the today nor the future section. -/
theorem unsorted_input_omits_today_show :
    ¬ sortedByTime [(⟨1, "A", "e", 691200⟩ : Show), ⟨2, "B", "f", 0⟩]
    ∧ dateNaive (0 : Int) = 0
    ∧ ((⟨2, "B", "f", 0⟩ : Show) ∉
        (filterPartition 0 [⟨1, "A", "e", 691200⟩, ⟨2, "B", "f", 0⟩]).1)
    ∧ ((⟨2, "B", "f", 0⟩ : Show) ∉
        (filterPartition 0 [⟨1, "A", "e", 691200⟩, ⟨2, "B", "f", 0⟩]).2) := by
  decide

/-- Membership in an insertion step. -/
theorem mem_insertSorted (s a : Show) (l : List Show) :
    a ∈ insertSorted s l ↔ a = s ∨ a ∈ l := by
  induction l with
  | nil => simp [insertSorted]
  | cons x xs ih =>
    by_cases hc : x.show_time ≤ s.show_time
    · simp only [insertSorted, if_pos hc, List.mem_cons, ih]
      tauto
    · simp only [insertSorted, if_neg hc, List.mem_cons]

/-- Insertion preserves ascending `show_time` order. -/
theorem insertSorted_sorted (s : Show) (l : List Show) (hl : sortedByTime l) :
    sortedByTime (insertSorted s l) := by
  induction l with
  | nil => simp [insertSorted]
  | cons x xs ih =>
    obtain ⟨hhead, htail⟩ := List.pairwise_cons.mp hl
    by_cases hc : x.show_time ≤ s.show_time
    · simp only [insertSorted, if_pos hc]
      refine List.pairwise_cons.mpr ⟨?_, ih htail⟩
      intro y hy
      rcases (mem_insertSorted s y xs).mp hy with hy | hy
      · subst hy; exact hc
      · exact hhead y hy
    · simp only [insertSorted, if_neg hc]
      refine List.pairwise_cons.mpr ⟨?_, hl⟩
      intro y hy
      rcases List.mem_cons.mp hy with hy | hy
      · subst hy; omega
      · have := hhead y hy; omega

/-- Insertion is a permutation of consing. -/
theorem insertSorted_perm (s : Show) (l : List Show) :
    (insertSorted s l).Perm (s :: l) := by
  induction l with
  | nil => simp [insertSorted]
  | cons x xs ih =>
    by_cases hc : x.show_time ≤ s.show_time
    · simp only [insertSorted, if_pos hc]
      exact (ih.cons x).trans (List.Perm.swap s x xs)
    · simp only [insertSorted, if_neg hc]
      exact List.Perm.refl _

/-- Stability of one insertion into a sorted accumulator: among the shows of any
fixed `show_time`, the new arrival lands last. -/
theorem filter_insertSorted (s : Show) (l : List Show) (hl : sortedByTime l) (t : Int) :
    (insertSorted s l).filter (fun x => x.show_time == t) =
      if s.show_time = t then l.filter (fun x => x.show_time == t) ++ [s]
      else l.filter (fun x => x.show_time == t) := by
  induction l with
  | nil =>
    by_cases ht : s.show_time = t <;> simp [insertSorted, List.filter_cons, ht]
  | cons x xs ih =>
    obtain ⟨hhead, htail⟩ := List.pairwise_cons.mp hl
    by_cases hc : x.show_time ≤ s.show_time
    · simp only [insertSorted, if_pos hc, List.filter_cons, ih htail]
      by_cases hxt : x.show_time = t <;> by_cases ht : s.show_time = t <;>
        simp [hxt, ht]
    · simp only [insertSorted, if_neg hc]
      by_cases ht : s.show_time = t
      · have hnil : (x :: xs).filter (fun x => x.show_time == t) = [] := by
          rw [List.filter_eq_nil_iff]
          intro y hy
          rcases List.mem_cons.mp hy with hy | hy
          · subst hy; simp only [beq_iff_eq]; omega
          · have := hhead y hy; simp only [beq_iff_eq]; omega
        simp [List.filter_cons, ht, hnil]
      · simp [List.filter_cons, ht]

/-- The insertion fold keeps the accumulator sorted. -/
theorem sortShows_fold_sorted (l : List Show) :
    ∀ acc : List Show, sortedByTime acc →
      sortedByTime (List.foldl (fun acc s => insertSorted s acc) acc l) := by
  induction l with
  | nil => intro acc h; simpa using h
  | cons s rest ih =>
    intro acc h
    exact ih (insertSorted s acc) (insertSorted_sorted s acc h)

/-- The insertion fold permutes the accumulator plus the input. -/
theorem sortShows_fold_perm (l : List Show) :
    ∀ acc : List Show, (List.foldl (fun acc s => insertSorted s acc) acc l).Perm (acc ++ l) := by
  induction l with
  | nil => intro acc; simp
  | cons s rest ih =>
    intro acc
    rw [List.foldl_cons]
    refine ((ih (insertSorted s acc)).trans ?_)
    refine ((insertSorted_perm s acc).append_right rest).trans ?_
    exact List.perm_middle.symm

/-- The insertion fold is stable: the shows of any fixed `show_time` appear in
accumulator order followed by input order. -/
theorem sortShows_fold_filter (l : List Show) (t : Int) :
    ∀ acc : List Show, sortedByTime acc →
      (List.foldl (fun acc s => insertSorted s acc) acc l).filter
          (fun x => x.show_time == t) =
        acc.filter (fun x => x.show_time == t) ++ l.filter (fun x => x.show_time == t) := by
  induction l with
  | nil => intro acc _; simp
  | cons s rest ih =>
    intro acc hacc
    rw [List.foldl_cons, ih (insertSorted s acc) (insertSorted_sorted s acc hacc),
      filter_insertSorted s acc hacc t, List.filter_cons]
    by_cases ht : s.show_time = t <;> simp [ht]

/-- C3: when every fetch succeeds, `get_shows_parallel` returns the fetched
shows (`c` is the present fetch results in input-identifier order, as collected
by the join loop) sorted ascending by `show_time`; the sort is a permutation,
and it is stable: for each fixed `show_time` the shows keep their input-order
relative arrangement. -/
theorem get_shows_parallel_sorted_stable (outcomes : List FetchOutcome)
    (c : List Show) (hc : collectShows outcomes = some c) :
    get_shows_parallel outcomes = some (sortShows c)
    ∧ sortedByTime (sortShows c)
    ∧ (sortShows c).Perm c
    ∧ ∀ t : Int, (sortShows c).filter (fun s => s.show_time == t) =
        c.filter (fun s => s.show_time == t) := by
  refine ⟨by simp [get_shows_parallel, hc], ?_, ?_, ?_⟩
  · exact sortShows_fold_sorted c [] (List.Pairwise.nil)
  · simpa using sortShows_fold_perm c []
  · intro t
    simpa using sortShows_fold_filter c t [] (List.Pairwise.nil)

/-- Witness for C3: four fetches, one empty, two shows tied at time 3 with the
one from the earlier identifier (id 2) staying before the one from the later
identifier (id 3) after the sort. -/
theorem get_shows_parallel_sorted_stable_witness :
    get_shows_parallel [FetchOutcome.ok (some ⟨1, "A", "e", 5⟩), FetchOutcome.ok none,
        FetchOutcome.ok (some ⟨2, "B", "f", 3⟩), FetchOutcome.ok (some ⟨3, "C", "g", 3⟩)] =
      some [⟨2, "B", "f", 3⟩, ⟨3, "C", "g", 3⟩, ⟨1, "A", "e", 5⟩] := by
  have h := (get_shows_parallel_sorted_stable
    [FetchOutcome.ok (some ⟨1, "A", "e", 5⟩), FetchOutcome.ok none,
      FetchOutcome.ok (some ⟨2, "B", "f", 3⟩), FetchOutcome.ok (some ⟨3, "C", "g", 3⟩)]
    [⟨1, "A", "e", 5⟩, ⟨2, "B", "f", 3⟩, ⟨3, "C", "g", 3⟩] rfl).1
  rw [h]
  decide

/-- A failed fetch outcome anywhere in the join loop makes the collection
panic (`unwrap` on an `Err`). -/
theorem collectShows_err (outcomes : List FetchOutcome) (msg : String)
    (hm : FetchOutcome.err msg ∈ outcomes) : collectShows outcomes = none := by
  induction outcomes with
  | nil => cases hm
  | cons o rest ih =>
    cases o with
    | err m => rfl
    | ok os =>
      have hm' : FetchOutcome.err msg ∈ rest := by
        rcases List.mem_cons.mp hm with h | h
        · exact absurd h (by simp)
        · exact h
      cases os with
      | none => simpa [collectShows] using ih hm'
      | some s => simp [collectShows, ih hm']

/-- C6: if any one show fetch fails, `get_shows_parallel` yields no list at all
(the run dies on the failed outcome), so it never returns a successful list
that silently omits a failed identifier. -/
theorem fetch_failure_fails_run (outcomes : List FetchOutcome) (msg : String)
    (hm : FetchOutcome.err msg ∈ outcomes) :
    get_shows_parallel outcomes = none := by
  simp [get_shows_parallel, collectShows_err outcomes msg hm]

/-- Witness for C6: one successful fetch followed by one transport failure
kills the whole aggregation. -/
theorem fetch_failure_fails_run_witness :
    get_shows_parallel [FetchOutcome.ok (some ⟨1, "A", "e", 0⟩),
        FetchOutcome.err "connection reset"] = none :=
  fetch_failure_fails_run _ "connection reset" (by decide)

/-- Map-insert then lookup: the inserted key reads back the new set, any other
key is untouched. -/
theorem lookup_insertMovie (title t : String) (ps : Finset String)
    (l : List (String × Finset String)) :
    (insertMovie title ps l).lookup t = if t = title then some ps else l.lookup t := by
  induction l with
  | nil =>
    by_cases h : t = title
    · subst h
      simp [insertMovie, List.lookup_cons]
    · have hb : (t == title) = false := beq_eq_false_iff_ne.mpr h
      simp [insertMovie, List.lookup_cons, hb, h]
  | cons kv rest ih =>
    obtain ⟨k, v⟩ := kv
    by_cases hk : k = title
    · subst hk
      by_cases h : t = k
      · subst h
        simp [insertMovie, List.lookup_cons]
      · have hb : (t == k) = false := beq_eq_false_iff_ne.mpr h
        simp [insertMovie, List.lookup_cons, hb, h]
    · by_cases h : t = k
      · subst h
        simp [insertMovie, if_neg hk, List.lookup_cons, hk]
      · have hb : (t == k) = false := beq_eq_false_iff_ne.mpr h
        simp [insertMovie, if_neg hk, List.lookup_cons, hb, ih]

/-- The movie loop never touches a key that is no movie title of its input. -/
theorem movieLoop_lookup_untouched (subscribed : Finset String) (t : String) :
    ∀ (movies : List Movie) (acc : List (String × Finset String)),
      (∀ m ∈ movies, m.title ≠ t) →
      (movieLoop subscribed acc movies).lookup t = acc.lookup t := by
  intro movies
  induction movies with
  | nil => intro acc _; rfl
  | cons x rest ih =>
    intro acc hnot
    have hx : x.title ≠ t := hnot x (List.mem_cons_self x rest)
    have hrest : ∀ m ∈ rest, m.title ≠ t := fun m hm => hnot m (List.mem_cons_of_mem x hm)
    show (movieLoop subscribed _ rest).lookup t = acc.lookup t
    rw [ih _ hrest]
    by_cases hcard : 0 < (movieIntersection subscribed x).card
    · simp [hcard, lookup_insertMovie, Ne.symm hx]
    · simp [hcard]

/-- Lookup of a listed movie in the loop result, for pairwise-distinct titles
and an accumulator not yet binding the title. -/
theorem movieLoop_lookup (subscribed : Finset String) (m : Movie) :
    ∀ (movies : List Movie) (acc : List (String × Finset String)),
      m ∈ movies → (movies.map Movie.title).Nodup → acc.lookup m.title = none →
      (movieLoop subscribed acc movies).lookup m.title =
        if 0 < (movieIntersection subscribed m).card
        then some (movieIntersection subscribed m) else none := by
  intro movies
  induction movies with
  | nil => intro acc hm; cases hm
  | cons x rest ih =>
    intro acc hm hnd hacc
    obtain ⟨hx_not, hnd_rest⟩ :=
      (by simpa using hnd :
        (∀ y ∈ rest, ¬ y.title = x.title) ∧ (rest.map Movie.title).Nodup)
    rcases List.mem_cons.mp hm with hmx | hmr
    · subst hmx
      have hrest : ∀ m' ∈ rest, m'.title ≠ m.title := fun m' hm' => hx_not m' hm'
      show (movieLoop subscribed _ rest).lookup m.title = _
      rw [movieLoop_lookup_untouched subscribed m.title rest _ hrest]
      by_cases hcard : 0 < (movieIntersection subscribed m).card
      · simp [hcard, lookup_insertMovie]
      · simp [hcard, hacc]
    · have hne : x.title ≠ m.title := fun he => hx_not m hmr he.symm
      have hacc' : (if 0 < (movieIntersection subscribed x).card
          then insertMovie x.title (movieIntersection subscribed x) acc
          else acc).lookup m.title = none := by
        by_cases hcard : 0 < (movieIntersection subscribed x).card
        · simp [hcard, lookup_insertMovie, Ne.symm hne, hacc]
        · simp [hcard, hacc]
      exact ih _ hmr hnd_rest hacc'

/-- C5: with pairwise-distinct movie titles, a movie appears in the
`movie_to_platforms` map exactly when the intersection of the subscriber
platforms with its offering platforms is non-empty, and then it is reported
with exactly that intersection. -/
theorem movie_qualification (subscribed : Finset String) (movies : List Movie)
    (hnd : (movies.map Movie.title).Nodup) (m : Movie) (hm : m ∈ movies) :
    (movie_to_platforms subscribed movies).lookup m.title =
      if (movieIntersection subscribed m).Nonempty
      then some (movieIntersection subscribed m) else none := by
  have h := movieLoop_lookup subscribed m movies [] hm hnd rfl
  rw [movie_to_platforms, h]
  by_cases hne : (movieIntersection subscribed m).Nonempty
  · simp [hne, Finset.card_pos.mpr hne]
  · simp [hne, fun hc => hne (Finset.card_pos.mp hc)]

/-- Witness for C5, the example from the spec: against subscriber platforms
`{B, C}`, a movie offered on `{A, B}` qualifies with exactly `{B}` and a movie
offered on `{D}` is dropped. -/
theorem movie_qualification_witness :
    (movie_to_platforms ({"B", "C"} : Finset String)
        [⟨"M1", ["A", "B"]⟩, ⟨"M2", ["D"]⟩]).lookup "M1" = some ({"B"} : Finset String)
    ∧ (movie_to_platforms ({"B", "C"} : Finset String)
        [⟨"M1", ["A", "B"]⟩, ⟨"M2", ["D"]⟩]).lookup "M2" = none := by
  constructor
  · have h := movie_qualification ({"B", "C"} : Finset String)
      [⟨"M1", ["A", "B"]⟩, ⟨"M2", ["D"]⟩] (by decide) ⟨"M1", ["A", "B"]⟩ (by decide)
    rw [h]
    decide
  · have h := movie_qualification ({"B", "C"} : Finset String)
      [⟨"M1", ["A", "B"]⟩, ⟨"M2", ["D"]⟩] (by decide) ⟨"M2", ["D"]⟩ (by decide)
    rw [h]
    decide

/-- C7 counterexample: `parse_show` is not total — the claim says a missing
episode name or airstamp degrades to a default, but `serde_json::Map` indexing
panics on an absent key, so an episode object without a `name` key (or without
an `airstamp` key) makes `parse_show` panic (modelled as `none`) instead of
producing a `Show`. -/
theorem parse_show_missing_key_panics :
    parse_show (fun _ => none) 1 "S" [] = none
    ∧ parse_show (fun _ => none) 1 "S" [("airstamp", Json.str "2024-01-01T00:00:00Z")] = none
    ∧ parse_show (fun _ => none) 1 "S" [("name", Json.str "ep")] = none :=
  ⟨rfl, rfl, rfl⟩

/-- C7 (amended): when the episode object does carry both the `name` and the
`airstamp` keys, `parse_show` cannot fail: a non-string name degrades to the
empty string, and a non-string or unparseable airstamp degrades to the
documented zero time. -/
theorem parse_show_degrades_when_keys_present (p : String → Option Int)
    (show_id : Int) (show_name : String) (episode_details : List (String × Json))
    (nv av : Json)
    (hn : Json.lookupField episode_details "name" = some nv)
    (ha : Json.lookupField episode_details "airstamp" = some av) :
    parse_show p show_id show_name episode_details =
      some { id := show_id, name := show_name,
             episode_name := nv.as_str.getD "",
             show_time := (p (av.as_str.getD "")).getD 0 } := by
  simp [parse_show, hn, ha]

/-- Witness for the amended C7: a numeric (non-string) name degrades to `""`
and an unparseable airstamp degrades to the zero time `0`. -/
theorem parse_show_degrades_witness :
    parse_show (fun _ => none) 3 "S"
        [("name", Json.num 7), ("airstamp", Json.str "not-a-date")] =
      some ⟨3, "S", "", 0⟩ :=
  parse_show_degrades_when_keys_present (fun _ => none) 3 "S"
    [("name", Json.num 7), ("airstamp", Json.str "not-a-date")]
    (Json.num 7) (Json.str "not-a-date") rfl rfl

/-- A value indexed out of some JSON value can only be an object (hence
`as_object = some _`) if the indexed value was an object itself. -/
theorem Json.is_object_of_index_as_object {j : Json} {key : String}
    {f : List (String × Json)} (h : (j.index key).as_object = some f) :
    j.is_object = true := by
  cases j <;> simp [Json.index, Json.as_object, Json.is_object] at h ⊢

/-- C1 counterexample: three response bodies on which the claim fails.
(1) A body with no `name` (and no embedded data): the claim says "no embedded
data → no event, not an error", but the code returns the error
`show name not found`. (2) A body whose previous episode is present with an
airstamp parsing to the current date but no `name` key: the claim says that
episode is returned, but `parse_show` panics on the missing key. (3) A body
whose next episode is present but lacks its keys: the claim says it is
returned, but the code panics. -/
theorem get_next_episode_claim_counterexample :
    ((Json.obj []).index "_embedded").is_object = false
    ∧ get_next_episode (fun _ => none) 0 1 (Json.obj []) =
        FetchResult.failure "show name not found"
    ∧ (fun s => if s = "T" then some (100 : Int) else none) "T" = some 100
    ∧ dateNaive (100 : Int) = dateNaive (100 : Int)
    ∧ get_next_episode (fun s => if s = "T" then some 100 else none) 100 1
        (Json.obj [("name", Json.str "S"),
          ("_embedded", Json.obj [("previousepisode",
            Json.obj [("airstamp", Json.str "T")])])]) =
        FetchResult.crash "key not found in previousepisode map"
    ∧ get_next_episode (fun _ => none) 0 1
        (Json.obj [("name", Json.str "S"),
          ("_embedded", Json.obj [("nextepisode", Json.obj [])])]) =
        FetchResult.crash "key not found in nextepisode map" :=
  ⟨rfl, rfl, rfl, rfl, rfl, rfl⟩

/-- C1 (amended): for any response body bearing a string `name` field:
(a) when the embedded data object is absent the fetch returns "no event"
rather than an error; (b) when a previous-episode object is present, parses
(both its keys are present) and its air date is the current local date, that
previous episode is returned, taking priority over any next episode; (c) when
the previous episode is absent or parses to a date other than today, a
present, parsing next-episode object is returned; (d) in the same situation,
the fetch returns "no event" when the next episode is absent. -/
theorem get_next_episode_behavior (p : String → Option Int) (now show_id : Int)
    (body : Json) (nm : String)
    (hname : (body.index "name").as_str = some nm) :
    ((body.index "_embedded").is_object = false →
        get_next_episode p now show_id body = FetchResult.noEvent)
    ∧ (∀ pf ps, ((body.index "_embedded").index "previousepisode").as_object = some pf →
        parse_show p show_id nm pf = some ps →
        dateNaive ps.show_time = dateNaive now →
        get_next_episode p now show_id body = FetchResult.event ps)
    ∧ (∀ nf ns, (((body.index "_embedded").index "previousepisode").as_object = none ∨
          ∃ pf ps, ((body.index "_embedded").index "previousepisode").as_object = some pf ∧
            parse_show p show_id nm pf = some ps ∧
            dateNaive ps.show_time ≠ dateNaive now) →
        ((body.index "_embedded").index "nextepisode").as_object = some nf →
        parse_show p show_id nm nf = some ns →
        get_next_episode p now show_id body = FetchResult.event ns)
    ∧ ((((body.index "_embedded").index "previousepisode").as_object = none ∨
          ∃ pf ps, ((body.index "_embedded").index "previousepisode").as_object = some pf ∧
            parse_show p show_id nm pf = some ps ∧
            dateNaive ps.show_time ≠ dateNaive now) →
        (body.index "_embedded").is_object = true →
        ((body.index "_embedded").index "nextepisode").as_object = none →
        get_next_episode p now show_id body = FetchResult.noEvent) := by
  refine ⟨?_, ?_, ?_, ?_⟩
  · intro h
    simp [get_next_episode, hname, h]
  · intro pf ps hpf hps hdate
    have hobj := Json.is_object_of_index_as_object hpf
    simp [get_next_episode, hname, hobj, hpf, hps, hdate]
  · intro nf ns hprev hnf hns
    have hobj := Json.is_object_of_index_as_object hnf
    rcases hprev with hnone | ⟨pf, ps, hpf, hps, hdate⟩
    · simp [get_next_episode, next_episode_part, hname, hobj, hnone, hnf, hns]
    · simp [get_next_episode, next_episode_part, hname, hobj, hpf, hps, hdate, hnf, hns]
  · intro hprev hobj hnone
    rcases hprev with hpnone | ⟨pf, ps, hpf, hps, hdate⟩
    · simp [get_next_episode, next_episode_part, hname, hobj, hpnone, hnone]
    · simp [get_next_episode, next_episode_part, hname, hobj, hpf, hps, hdate, hnone]

/-- Witness for the amended C1: a body with a same-day previous episode and a
next episode returns the previous episode (priority of the same-day aired
episode). -/
theorem get_next_episode_behavior_witness :
    get_next_episode (fun s => if s = "T" then some 100 else none) 100 7
        (Json.obj [("name", Json.str "MyShow"),
          ("_embedded", Json.obj [("previousepisode",
              Json.obj [("name", Json.str "ep1"), ("airstamp", Json.str "T")]),
            ("nextepisode",
              Json.obj [("name", Json.str "ep2"), ("airstamp", Json.str "U")])])]) =
      FetchResult.event ⟨7, "MyShow", "ep1", 100⟩ :=
  (get_next_episode_behavior (fun s => if s = "T" then some 100 else none) 100 7
      (Json.obj [("name", Json.str "MyShow"),
        ("_embedded", Json.obj [("previousepisode",
            Json.obj [("name", Json.str "ep1"), ("airstamp", Json.str "T")]),
          ("nextepisode",
            Json.obj [("name", Json.str "ep2"), ("airstamp", Json.str "U")])])])
      "MyShow" rfl).2.1
    [("name", Json.str "ep1"), ("airstamp", Json.str "T")]
    ⟨7, "MyShow", "ep1", 100⟩ rfl rfl rfl

/-- C8: the platform list built by `get_streaming_platforms` contains exactly
the effective names of the offerings whose streaming type is `subscription` or
`addon` (one entry per qualifying offering, so rental/purchase entries are
excluded), and the effective name of an offering with an add-on name present is
that add-on name, not the umbrella service name. -/
theorem streaming_platforms_exact (title : String) (us : List Service) :
    (∀ pName : String, pName ∈ (get_streaming_platforms title us).platforms ↔
        ∃ s ∈ us, (s.streaming_type = "subscription" ∨ s.streaming_type = "addon") ∧
          pName = effectivePlatform s)
    ∧ (get_streaming_platforms title us).platforms.length =
        (us.filter isSubscriptionOrAddon).length
    ∧ (∀ s ∈ us.filter isSubscriptionOrAddon,
        s.streaming_type = "subscription" ∨ s.streaming_type = "addon")
    ∧ (∀ (s : Service) (a : String), s.addon = some a → effectivePlatform s = a) := by
  refine ⟨?_, ?_, ?_, ?_⟩
  · intro pName
    simp only [get_streaming_platforms, List.mem_map, List.mem_filter,
      isSubscriptionOrAddon, Bool.or_eq_true, beq_iff_eq]
    constructor
    · rintro ⟨s, ⟨hmem, hq⟩, heq⟩
      exact ⟨s, hmem, hq, heq.symm⟩
    · rintro ⟨s, hmem, hq, heq⟩
      exact ⟨s, ⟨hmem, hq⟩, heq.symm⟩
  · simp [get_streaming_platforms]
  · intro s hs
    have := (List.mem_filter.mp hs).2
    simpa [isSubscriptionOrAddon] using this
  · intro s a ha
    simp [effectivePlatform, ha]

/-- Witness for C8: an add-on offering is reported under its add-on name
(`Max`, not `HBO`) and a rental offering contributes nothing. -/
theorem streaming_platforms_exact_witness :
    "Max" ∈ (get_streaming_platforms "F"
        [⟨"HBO", "addon", some "Max"⟩, ⟨"Amazon", "rental", none⟩]).platforms
    ∧ (get_streaming_platforms "F"
        [⟨"HBO", "addon", some "Max"⟩, ⟨"Amazon", "rental", none⟩]).platforms.length = 1 := by
  have h := streaming_platforms_exact "F"
    [⟨"HBO", "addon", some "Max"⟩, ⟨"Amazon", "rental", none⟩]
  constructor
  · exact (h.1 "Max").mpr
      ⟨⟨"HBO", "addon", some "Max"⟩, by decide, Or.inr rfl, rfl⟩
  · rw [h.2.1]
    decide

set_option maxRecDepth 100000 in
/-- C9 evaluation at the failing input: with no shows, one tracked movie
`Dune` offered on the subscribed platform `Netflix`, the qualifying movie
appears in the plain-text debug output, but the email body built by
`send_email` contains no trace of it — the two renderings do not carry the
same information. -/
theorem email_omits_movie_info :
    (plainOutputLines (fun _ => "") (fun _ => "set") []
        (movie_to_platforms ({"Netflix"} : Finset String) [⟨"Dune", ["Netflix"]⟩])).any
      (fun line => strContains line "Dune") = true
    ∧ strContains (emailMessage (fun _ => "") "example.com" 0 []) "Dune" = false := by
  constructor
  · decide
  · decide
